import Mathlib

/-!
Verification of the `android-xdl-rs` derive-macro core (`xdl-derive`): the case
converter (`internals/case.rs`), attribute resolution (`internals/attr.rs`,
`internals/ast.rs`), symbol-plan construction and code generation
(`wrapper.rs`), and the runtime semantics of the generated `load_from` code.

Rust strings are modelled as lists of characters (`Str`).  Rust functions that
can panic are modelled with an `Option` result, `none` standing for the panic.
-/

set_option maxRecDepth 8192

namespace Xdl

/-- Rust `String` / `&str`, modelled as a list of characters. -/
abbrev Str := List Char

/-- Convert a Lean string literal to the `Str` model. -/
def str (s : String) : Str := s.data

/-! ## `internals/case.rs` -/

/-- `RenameRule` from `internals/case.rs`: the six naming conventions. -/
inductive RenameRule
  | None
  | LowerCase
  | UpperCase
  | PascalCase
  | CamelCase
  | SnakeCase
  | ScreamingSnakeCase
deriving DecidableEq

/-- `RENAME_RULES` from `internals/case.rs`: the recognized rule names. -/
def RENAME_RULES : List (Str × RenameRule) :=
  [(str "lowercase", .LowerCase),
   (str "UPPERCASE", .UpperCase),
   (str "PascalCase", .PascalCase),
   (str "camelCase", .CamelCase),
   (str "snake_case", .SnakeCase),
   (str "SCREAMING_SNAKE_CASE", .ScreamingSnakeCase)]

/-- `RenameRule::from_str`: first matching entry of `RENAME_RULES`, else a
`ParseError` carrying the unknown name. -/
def RenameRule.fromStr (s : Str) : Except Str RenameRule :=
  match RENAME_RULES.find? (fun p => p.1 = s) with
  | some p => .ok p.2
  | none => .error s

/-- Rust `char::is_ascii`: the code point is below 128. -/
def isAsciiChar (c : Char) : Bool := c.toNat < 128

/-- The `PascalCase` loop body of `RenameRule::apply_to_field`: an underscore
sets the `capitalize` flag and is dropped; a character met with the flag set is
ASCII-uppercased and clears it; other characters are kept unchanged. -/
def pascalAux (capitalize : Bool) : Str → Str
  | [] => []
  | c :: rest =>
    if c = '_' then pascalAux true rest
    else if capitalize then c.toUpper :: pascalAux false rest
    else c :: pascalAux false rest

/-- `RenameRule::apply_to_field` from `internals/case.rs`.  `Char.toUpper` /
`Char.toLower` are exactly Rust's `to_ascii_uppercase` / `to_ascii_lowercase`
(they only touch ASCII letters).  The `CamelCase` arm computes the `PascalCase`
form and then evaluates `pascal[..1].to_ascii_lowercase() + &pascal[1..]`,
slicing the first BYTE: this panics (modelled as `none`) when the
intermediate string is empty, and also when its first character is a
multi-byte (non-ASCII) character, because byte index 1 is then not a
character boundary.  A single-byte first character is exactly an ASCII one,
and `to_ascii_lowercase` on that one-byte string is `Char.toLower`. -/
def RenameRule.apply_to_field : RenameRule → Str → Option Str
  | .None, field => some field
  | .SnakeCase, field => some field
  | .LowerCase, field => some (field.map Char.toLower)
  | .UpperCase, field => some (field.map Char.toUpper)
  | .PascalCase, field => some (pascalAux true field)
  | .CamelCase, field =>
    match pascalAux true field with
    | [] => none
    | c :: rest => if isAsciiChar c then some (c.toLower :: rest) else none
  | .ScreamingSnakeCase, field => some (field.map Char.toUpper)

/-- `RenameRule::or` from `internals/case.rs`: `self` unless `self` is `None`,
in which case `rule_b`. -/
def RenameRule.or (self rule_b : RenameRule) : RenameRule :=
  match self with
  | .None => rule_b
  | _ => self

/-! ### Specification-side description of `PascalCase`

The spec describes `PascalCase` as: split on `'_'`, drop the underscores,
uppercase each segment's first character, concatenate.  The following
definitions follow those words (they are compared against `pascalAux`, the
translation of the source loop). -/

/-- Split a string at every underscore, keeping empty segments (the behaviour
of splitting on a separator: `"a_b"` gives `["a", "b"]`, `"_"` gives
`["", ""]`, `""` gives `[""]`). -/
def splitOnUnderscoreSpec : Str → List Str
  | [] => [[]]
  | c :: rest =>
    match splitOnUnderscoreSpec rest with
    | [] => [[]]
    | s :: ss => if c = '_' then [] :: s :: ss else (c :: s) :: ss

/-- Uppercase the first character of a segment, leaving the rest unchanged. -/
def capitalizeSegment : Str → Str
  | [] => []
  | c :: rest => c.toUpper :: rest

/-- Spec-side `PascalCase`: split on `'_'`, capitalize each segment,
concatenate without separators. -/
def pascalSpec (field : Str) : Str :=
  ((splitOnUnderscoreSpec field).map capitalizeSegment).flatten

/-- The tail form used while proving `pascalAux` against `pascalSpec`: the
first segment is kept unchanged, the remaining segments are capitalized. -/
def pascalSpecRest (field : Str) : Str :=
  match splitOnUnderscoreSpec field with
  | [] => []
  | s :: ss => s ++ (ss.map capitalizeSegment).flatten

/-! ## `internals/attr.rs`: resolved attribute data -/

/-- `ImplicitMetadata` from `internals/attr.rs`. -/
structure ImplicitMetadata where
  rename : RenameRule := .None
  debug : Option Bool := none
deriving DecidableEq

/-- `SymbolMetadata` from `internals/attr.rs`.  (The Rust fields are named
`prefix` and `suffix`.) -/
structure SymbolMetadata where
  prefixStr : Option Str := none
  suffixStr : Option Str := none
deriving DecidableEq

/-- Struct-level `Metadata` from `internals/attr.rs`. -/
structure Metadata where
  implicit : ImplicitMetadata := {}
  symbol : SymbolMetadata := {}
  logger : Bool := false
deriving DecidableEq

/-- `LitString` from `internals/attr.rs`: a plain string literal (subject to
prefix/suffix decoration) or a C-string literal (exact bytes). -/
inductive LitString
  | String (s : Str)
  | CString (s : Str)
deriving DecidableEq

/-- `SymbolSpec` from `internals/attr.rs`: one symbol candidate. -/
structure SymbolSpec where
  name : LitString
  debug : Bool
deriving DecidableEq

/-- `FieldMetadata` from `internals/attr.rs`. -/
structure FieldMetadata where
  implicit : ImplicitMetadata := {}
  symbols : List SymbolSpec := []
  logger : Option Bool := none
deriving DecidableEq

/-! ## `internals/ast.rs`: the schema -/

/-- The `syn::Type` shapes distinguished by `wrapper.rs`: bare functions
(with or without a variadic tail), references, raw pointers, `Option<inner>`
paths (`get_option_inner_type` succeeds), any other type, and parenthesised
groups (unwrapped by `skip_type_group`). -/
inductive Ty
  | bareFn (variadic : Bool)
  | reference (mutable : Bool)
  | ptr
  | optionPath (inner : Ty)
  | otherTy
  | group (inner : Ty)
deriving DecidableEq

/-- `skip_type_group` from `wrapper.rs`: unwrap `Type::Group` recursively. -/
def skip_type_group : Ty → Ty
  | .group inner => skip_type_group inner
  | .bareFn v => .bareFn v
  | .reference m => .reference m
  | .ptr => .ptr
  | .optionPath i => .optionPath i
  | .otherTy => .otherTy

/-- `ast::Field`: a named struct field with its parsed attributes. -/
structure Field where
  ident : Str
  attrs : FieldMetadata
  ty : Ty
deriving DecidableEq

/-- `ast::Metadata`: the whole derive input after attribute parsing. -/
structure AstMetadata where
  ident : Str
  attrs : Metadata
  fields : List Field
deriving DecidableEq

/-! ## `wrapper.rs`: symbol plan construction (macro time) -/

/-- The candidate-list half of `generate_symbols_load_expr`: if the field
declares no `symbol` attribute, synthesize one implicit candidate by applying
`implicit.rename.or(ast_implicit.rename)` to the field name, with debug flag
`implicit.debug.or(ast_implicit.debug).unwrap_or(false)`; otherwise use the
declared list.  `none` models the `apply_to_field` panic (see `CamelCase`). -/
def fieldSymbols (field : Field) (meta : AstMetadata) : Option (List SymbolSpec) :=
  if field.attrs.symbols.isEmpty then
    match (field.attrs.implicit.rename.or meta.attrs.implicit.rename).apply_to_field
        field.ident with
    | none => none
    | some symbol =>
      some [{ name := LitString.String symbol,
              debug := (field.attrs.implicit.debug.or meta.attrs.implicit.debug).getD false }]
  else
    some field.attrs.symbols

/-- Rust `str::trim`: drop leading and trailing whitespace.  (Rust trims
Unicode `White_Space`; `Char.isWhitespace` covers the ASCII whitespace used
here.) -/
def rustTrim (s : Str) : Str :=
  ((s.dropWhile Char.isWhitespace).reverse.dropWhile Char.isWhitespace).reverse

/-- The decoration step of `generate_symbols_load_expr`: a `String` candidate
gets the trimmed struct-level prefix prepended and the trimmed suffix
appended; a `CString` candidate is used as its exact bytes. -/
def decorateSymbol (meta : AstMetadata) (spec : SymbolSpec) : Str :=
  match spec.name with
  | .String name =>
    let symbol := match meta.attrs.symbol.prefixStr with
      | some p => rustTrim p ++ name
      | none => name
    match meta.attrs.symbol.suffixStr with
    | some s => symbol ++ rustTrim s
    | none => symbol
  | .CString name => name

/-- One candidate of a field's resolution plan, as produced by the second
`map` of `generate_symbols_load_expr`: the decorated symbol bytes, the
debug-table flag, and the effective logger flag
(`field.attrs.logger.unwrap_or(meta.attrs.logger)`). -/
structure PlanEntry where
  symbol : Str
  debug : Bool
  logger : Bool
deriving DecidableEq

/-- The full resolution plan of one field: candidates in declared order, each
decorated.  `none` models the macro-time panic. -/
def fieldPlan (field : Field) (meta : AstMetadata) : Option (List PlanEntry) :=
  (fieldSymbols field meta).map (List.map (fun spec =>
    { symbol := decorateSymbol meta spec,
      debug := spec.debug,
      logger := field.attrs.logger.getD meta.attrs.logger }))

/-- The decorated symbol names of a field's plan, in order. -/
def fieldPlanNames (field : Field) (meta : AstMetadata) : Option (List Str) :=
  (fieldPlan field meta).map (List.map PlanEntry.symbol)

/-! ## `wrapper.rs`: load clause and wrapper synthesis -/

/-- The schema errors recorded through the error-accumulation context.  Each
constructor corresponds to one `cx.error_spanned_by` / `meta.error` call site
of `attr.rs`, `ast.rs` or `wrapper.rs`. -/
inductive SchemaError
  | unknownAttr (path : Str)
  | unknownRenameRule (name : Str)
  | unexpectedSuffix (sfx : Str)
  | expectedString (attrName : Str)
  | expectedBool (attrName : Str)
  | expectedStringOrArray
  | invalidSymbolElement
  | parseFail
  | unsupportedType (ty : Ty)
  | notNamedStruct
deriving DecidableEq

/-- How `generate_symbols_load_clause` initializes a field: `#expr?` for bare
functions, references and pointers; `#expr.ok()` for `Option<...>` paths; a
recorded schema error otherwise. -/
inductive LoadKind
  | required
  | optional
  | unsupported
deriving DecidableEq

/-- The match of `generate_symbols_load_clause` on the (group-stripped) field
type. -/
def loadKind (ty : Ty) : LoadKind :=
  match skip_type_group ty with
  | .bareFn _ => .required
  | .reference _ => .required
  | .ptr => .required
  | .optionPath _ => .optional
  | _ => .unsupported

/-- One generated field initializer: field name, load kind, resolution plan. -/
abbrev Clause := Str × LoadKind × List PlanEntry

/-- `generate_symbols_load_clause`, field by field: an unsupported type
records an error and produces no initializer; otherwise the field's plan is
synthesized (`none` propagates the macro-time panic, which aborts the whole
expansion before anything is observable). -/
def loadClauseFields (meta : AstMetadata) :
    List Field → Option (List Clause × List SchemaError)
  | [] => some ([], [])
  | f :: rest =>
    match loadKind f.ty with
    | .unsupported =>
      (loadClauseFields meta rest).map (fun p =>
        (p.1, SchemaError.unsupportedType f.ty :: p.2))
    | k =>
      match fieldPlan f meta with
      | none => none
      | some plan =>
        (loadClauseFields meta rest).map (fun p =>
          ((f.ident, k, plan) :: p.1, p.2))

/-- `generate_symbols_load_clause` over all fields of the input. -/
def generate_symbols_load_clause (meta : AstMetadata) :
    Option (List Clause × List SchemaError) :=
  loadClauseFields meta meta.fields

/-- The accessor surface generated by `generate_symbols_wrapper` for one
field: a callable wrapper, a (possibly mutable) reference accessor, an
optional-call wrapper with its `has_<ident>` query, or an optional reference
accessor. -/
inductive Wrapper
  | function (ident : Str)
  | reference (ident : Str) (mutAccessor : Bool)
  | optionalFunction (ident : Str)
  | optionalReference (ident : Str) (mutable : Bool)
deriving DecidableEq

/-- The per-field match of `generate_symbols_wrapper`: variadic bare functions
and raw pointers produce no wrapper and no error
(`generate_function_wrapper` / `generate_optional_function_wrapper` return
`None` on a variadic signature); an `Option` of anything else, or any other
type, records an unsupported-type error. -/
def fieldWrapper (f : Field) : Option Wrapper × List SchemaError :=
  match skip_type_group f.ty with
  | .bareFn variadic =>
    (if variadic then none else some (.function f.ident), [])
  | .reference m => (some (.reference f.ident m), [])
  | .ptr => (none, [])
  | .optionPath inner =>
    match inner with
    | .bareFn variadic =>
      (if variadic then none else some (.optionalFunction f.ident), [])
    | .reference m => (some (.optionalReference f.ident m), [])
    | .ptr => (none, [])
    | _ => (none, [SchemaError.unsupportedType f.ty])
  | _ => (none, [SchemaError.unsupportedType f.ty])

/-- `generate_symbols_wrapper` over all fields, in declared order. -/
def generate_symbols_wrapper (meta : AstMetadata) :
    List Wrapper × List SchemaError :=
  meta.fields.foldr (fun f p =>
    ((fieldWrapper f).1.toList ++ p.1, (fieldWrapper f).2 ++ p.2)) ([], [])

/-! ## Runtime semantics of the generated code

`raw::Library::symbol` / `debug_symbol` return the symbol address or
`Error::SymbolNotFound(name)`.  The library is modelled as a pair of lookup
oracles; addresses are natural numbers. -/

/-- The runtime library handle: the normal (`xdl_sym`) and debug (`xdl_dsym`)
symbol tables. -/
structure Library where
  symbolAddr : Str → Option Nat
  debugSymbolAddr : Str → Option Nat

/-- Evaluation of one generated lookup `lib.symbol(#symbol, None)` or
`lib.debug_symbol(#symbol, None)`, selected by the candidate's debug flag.
The `.inspect` / `.inspect_err` logging attached when the logger flag is set
returns the value unchanged, so it does not affect the result. -/
def Library.lookupEntry (lib : Library) (e : PlanEntry) : Except Str Nat :=
  match (if e.debug then lib.debugSymbolAddr e.symbol else lib.symbolAddr e.symbol) with
  | some a => .ok a
  | none => .error e.symbol

/-- Evaluation of the fallback chain built by
`.reduce(|acc, expr| acc.or_else(|_| expr)).unwrap()`: a left fold of
`or_else` over the candidate lookups.  `none` models the `unwrap` panic on an
empty candidate list. -/
def loadExprEval (lib : Library) (plan : List PlanEntry) : Option (Except Str Nat) :=
  match plan with
  | [] => none
  | first :: rest =>
    some (rest.foldl
      (fun acc e =>
        match acc with
        | .ok a => .ok a
        | .error _ => lib.lookupEntry e)
      (lib.lookupEntry first))

/-- The candidates the chain actually evaluates: `or_else` runs its closure
only when the receiver is an error, so evaluation proceeds left to right and
stops at the first successful lookup. -/
def loadExprAttempts (lib : Library) : List PlanEntry → List PlanEntry
  | [] => []
  | e :: rest =>
    match lib.lookupEntry e with
    | .ok _ => [e]
    | .error _ => e :: loadExprAttempts lib rest

/-- Recursive first-success form of the fallback chain (used to reason about
`loadExprEval`). -/
def firstSuccess (lib : Library) (e : PlanEntry) : List PlanEntry → Except Str Nat
  | [] => lib.lookupEntry e
  | e2 :: rest =>
    match lib.lookupEntry e with
    | .ok a => .ok a
    | .error _ => firstSuccess lib e2 rest

/-- The runtime value a generated field holds: a resolved address for a
required field, an optional address for an `Option`-typed field. -/
inductive FieldValue
  | required (addr : Nat)
  | optional (addr : Option Nat)
deriving DecidableEq

/-- Runtime semantics of the generated `Symbols::load_from` body
`Ok(Self { f1: e1?, f2: e2.ok(), ... })`: initializers are evaluated in field
order; `?` on a required field returns the error immediately; `.ok()` turns an
optional field's failure into `None`.  `none` models states the generated
code can never reach (an empty plan, or a clause for an unsupported field,
neither of which the generator emits). -/
def load_from (lib : Library) : List Clause → Option (Except Str (List FieldValue))
  | [] => some (.ok [])
  | (_, k, plan) :: rest =>
    match loadExprEval lib plan with
    | none => none
    | some res =>
      match k, res with
      | .required, .error e => some (.error e)
      | .required, .ok a =>
        (load_from lib rest).map (fun r => r.map (FieldValue.required a :: ·))
      | .optional, r =>
        (load_from lib rest).map (fun w => w.map (FieldValue.optional r.toOption :: ·))
      | .unsupported, _ => none

/-- The `has_<field>` query generated by `generate_optional_function_wrapper`:
`self.#ident.is_some()`.  Only optional fields have one. -/
def has_field : FieldValue → Option Bool
  | .optional a => some a.isSome
  | .required _ => none

/-! ## `internals/attr.rs`: attribute parsing

The raw attribute input is a small nested key-value tree, mirroring what
`syn::meta::ParseNestedMeta` walks.  Errors recorded through the context
accumulate; an `Err` returned from a `parse_nested_meta` callback stops that
one attribute's walk and is recorded as well.

Modelled from the spec: the `Ctxt` error-accumulation context
(`internals/mod.rs` is not part of the sources here).  Per the spec, every
recorded error is kept and the whole diagnostic set is reported together, so
`Ctxt` is modelled as the list of recorded errors in order, returned alongside
each parsing result. -/

/-- The literal shapes `attr.rs` distinguishes: string and C-string literals
(value plus suffix), boolean literals, anything else. -/
inductive Lit
  | strLit (s : Str) (sfx : Str)
  | cstrLit (s : Str) (sfx : Str)
  | boolLit (b : Bool)
  | otherLit
deriving DecidableEq

/-- The expression shapes `attr.rs` distinguishes on an attribute value. -/
inductive Expr
  | lit (l : Lit)
  | array (es : List Expr)
  | group (e : Expr)
  | otherExpr

/-- `skip_expr_group` from `internals/attr.rs`. -/
def skip_expr_group : Expr → Expr
  | .group e => skip_expr_group e
  | .lit l => .lit l
  | .array es => .array es
  | .otherExpr => .otherExpr

/-- One nested meta item: `path(...)`, `path = value`, or a bare `path`. -/
inductive Meta
  | list (path : Str) (items : List Meta)
  | nameValue (path : Str) (value : Expr)
  | bare (path : Str)

/-- The path of a nested meta item. -/
def Meta.path : Meta → Str
  | .list p _ => p
  | .nameValue p _ => p
  | .bare p => p

/-- `get_lit_str`: requires a `path = value` item (anything else makes
`meta.value()` fail, an `Err` that aborts the attribute walk); a string
literal is returned even when its non-empty suffix records an error; any
other value records an error and yields `None`. -/
def get_lit_str (attrName : Str) (m : Meta) :
    Except SchemaError (Option Str × List SchemaError) :=
  match m with
  | .nameValue _ v =>
    match skip_expr_group v with
    | .lit (.strLit s sfx) =>
      .ok (some s, if sfx = [] then [] else [.unexpectedSuffix sfx])
    | _ => .ok (none, [.expectedString attrName])
  | _ => .error .parseFail

/-- `get_lit_bool`: a bare `path` means `true`; `path = value` requires a
boolean literal (anything else records an error and yields `None`).  A
`path(...)` item leaves the list unparsed in the token stream, which makes
the surrounding `parse_nested_meta` fail; that failure is modelled as the
aborting error. -/
def get_lit_bool (attrName : Str) (m : Meta) :
    Except SchemaError (Option Bool × List SchemaError) :=
  match m with
  | .bare _ => .ok (some true, [])
  | .nameValue _ v =>
    match skip_expr_group v with
    | .lit (.boolLit b) => .ok (some b, [])
    | _ => .ok (none, [.expectedBool attrName])
  | .list _ _ => .error .parseFail

/-- The `parse_nested_meta` walk of `ImplicitMetadata::from_ast`: `rename`
parses a rule name (an unknown name records the `ParseError`), `debug` parses
a boolean, any other key is an `Err` that aborts the walk. -/
def implicitFromItems (metadata : ImplicitMetadata) :
    List Meta → ImplicitMetadata × List SchemaError
  | [] => (metadata, [])
  | item :: rest =>
    if item.path = str "rename" then
      match get_lit_str (str "rename") item with
      | .error e => (metadata, [e])
      | .ok (some s, errs) =>
        match RenameRule.fromStr s with
        | .ok rule =>
          let p := implicitFromItems { metadata with rename := rule } rest
          (p.1, errs ++ p.2)
        | .error unknown =>
          let p := implicitFromItems metadata rest
          (p.1, errs ++ SchemaError.unknownRenameRule unknown :: p.2)
      | .ok (none, errs) =>
        let p := implicitFromItems metadata rest
        (p.1, errs ++ p.2)
    else if item.path = str "debug" then
      match get_lit_bool (str "debug") item with
      | .error e => (metadata, [e])
      | .ok (ob, errs) =>
        let p := implicitFromItems
          (match ob with
           | some b => { metadata with debug := some b }
           | none => metadata) rest
        (p.1, errs ++ p.2)
    else
      (metadata, [.unknownAttr item.path])

/-- `ImplicitMetadata::from_ast`: walks `implicit(...)`; any other item shape
makes its `parse_nested_meta` fail, the error is recorded and the default
metadata returned. -/
def ImplicitMetadata.from_ast (m : Meta) : ImplicitMetadata × List SchemaError :=
  match m with
  | .list _ items => implicitFromItems {} items
  | _ => ({}, [.parseFail])

/-- The `parse_nested_meta` walk of `SymbolMetadata::from_ast`: `prefix` and
`suffix` each take a non-empty string (an empty value is silently ignored),
any other key aborts the walk. -/
def symbolFromItems (metadata : SymbolMetadata) :
    List Meta → SymbolMetadata × List SchemaError
  | [] => (metadata, [])
  | item :: rest =>
    if item.path = str "prefix" then
      match get_lit_str (str "prefix") item with
      | .error e => (metadata, [e])
      | .ok (os, errs) =>
        let p := symbolFromItems
          (match os with
           | some s => if s = [] then metadata else { metadata with prefixStr := some s }
           | none => metadata) rest
        (p.1, errs ++ p.2)
    else if item.path = str "suffix" then
      match get_lit_str (str "suffix") item with
      | .error e => (metadata, [e])
      | .ok (os, errs) =>
        let p := symbolFromItems
          (match os with
           | some s => if s = [] then metadata else { metadata with suffixStr := some s }
           | none => metadata) rest
        (p.1, errs ++ p.2)
    else
      (metadata, [.unknownAttr item.path])

/-- `SymbolMetadata::from_ast`. -/
def SymbolMetadata.from_ast (m : Meta) : SymbolMetadata × List SchemaError :=
  match m with
  | .list _ items => symbolFromItems {} items
  | _ => ({}, [.parseFail])

/-- The suffix handling of `get_symbol_array` (`has_debug_suffix`): a trimmed
suffix of `d` or `debug` marks a debug candidate; an empty suffix means a
normal candidate; any other suffix records an error and the candidate is kept
with `debug = false`. -/
def suffixDebug (sfx : Str) : Bool × List SchemaError :=
  if rustTrim sfx = [] then (false, [])
  else if rustTrim sfx = str "d" then (true, [])
  else if rustTrim sfx = str "debug" then (true, [])
  else (false, [.unexpectedSuffix (rustTrim sfx)])

/-- One element of a `symbol = [...]` array: string and C-string literals
become candidates; any other element records an error and is skipped. -/
def symbolSpecOfExpr (e : Expr) : Option SymbolSpec × List SchemaError :=
  match e with
  | .lit (.strLit s sfx) =>
    ((suffixDebug sfx).1 |> fun d => some ⟨.String s, d⟩, (suffixDebug sfx).2)
  | .lit (.cstrLit s sfx) =>
    ((suffixDebug sfx).1 |> fun d => some ⟨.CString s, d⟩, (suffixDebug sfx).2)
  | _ => (none, [.invalidSymbolElement])

/-- Collect the candidates of a `symbol` array, keeping element order and
accumulating element errors. -/
def collectSymbolSpecs : List Expr → List SymbolSpec × List SchemaError
  | [] => ([], [])
  | e :: rest =>
    ((symbolSpecOfExpr e).1.toList ++ (collectSymbolSpecs rest).1,
     (symbolSpecOfExpr e).2 ++ (collectSymbolSpecs rest).2)

/-- `get_symbol_array`: the value must be an array or a single plain string
literal; anything else (including a lone C-string literal) is an `Err` that
aborts the attribute walk. -/
def get_symbol_array (m : Meta) :
    Except SchemaError (List SymbolSpec × List SchemaError) :=
  match m with
  | .nameValue _ v =>
    match v with
    | .array es => .ok (collectSymbolSpecs es)
    | .lit (.strLit s sfx) => .ok (collectSymbolSpecs [.lit (.strLit s sfx)])
    | _ => .error .expectedStringOrArray
  | _ => .error .parseFail

/-- The `parse_nested_meta` walk of struct-level `Metadata::from_ast`:
`implicit(...)`, `symbol(...)`, `logger`, everything else aborts the walk
with an unknown-attribute error. -/
def metadataFromItems (metadata : Metadata) :
    List Meta → Metadata × List SchemaError
  | [] => (metadata, [])
  | item :: rest =>
    if item.path = str "implicit" then
      let q := ImplicitMetadata.from_ast item
      let p := metadataFromItems { metadata with implicit := q.1 } rest
      (p.1, q.2 ++ p.2)
    else if item.path = str "symbol" then
      let q := SymbolMetadata.from_ast item
      let p := metadataFromItems { metadata with symbol := q.1 } rest
      (p.1, q.2 ++ p.2)
    else if item.path = str "logger" then
      match get_lit_bool (str "logger") item with
      | .error e => (metadata, [e])
      | .ok (ob, errs) =>
        let p := metadataFromItems
          (match ob with
           | some b => { metadata with logger := b }
           | none => metadata) rest
        (p.1, errs ++ p.2)
    else
      (metadata, [.unknownAttr item.path])

/-- One attribute's contribution to struct-level `Metadata::from_ast`:
attributes whose path is not `native` are skipped; a `native` attribute that
is not a list makes `parse_nested_meta` fail. -/
def metadataFromAttr (metadata : Metadata) (attr : Meta) :
    Metadata × List SchemaError :=
  if attr.path = str "native" then
    match attr with
    | .list _ items => metadataFromItems metadata items
    | _ => (metadata, [.parseFail])
  else (metadata, [])

/-- Struct-level `Metadata::from_ast`: fold over the attributes, threading
the metadata and accumulating every attribute's errors. -/
def Metadata.from_ast (attrs : List Meta) : Metadata × List SchemaError :=
  attrs.foldl (fun acc attr =>
    ((metadataFromAttr acc.1 attr).1, acc.2 ++ (metadataFromAttr acc.1 attr).2))
    ({}, [])

/-- The `parse_nested_meta` walk of `FieldMetadata::from_ast`. -/
def fieldMetadataFromItems (metadata : FieldMetadata) :
    List Meta → FieldMetadata × List SchemaError
  | [] => (metadata, [])
  | item :: rest =>
    if item.path = str "implicit" then
      let q := ImplicitMetadata.from_ast item
      let p := fieldMetadataFromItems { metadata with implicit := q.1 } rest
      (p.1, q.2 ++ p.2)
    else if item.path = str "symbol" then
      match get_symbol_array item with
      | .error e => (metadata, [e])
      | .ok (sps, errs) =>
        let p := fieldMetadataFromItems { metadata with symbols := sps } rest
        (p.1, errs ++ p.2)
    else if item.path = str "logger" then
      match get_lit_bool (str "logger") item with
      | .error e => (metadata, [e])
      | .ok (ob, errs) =>
        let p := fieldMetadataFromItems
          (match ob with
           | some b => { metadata with logger := some b }
           | none => metadata) rest
        (p.1, errs ++ p.2)
    else
      (metadata, [.unknownAttr item.path])

/-- `FieldMetadata::from_ast`: fold over the field's attributes. -/
def FieldMetadata.from_ast (attrs : List Meta) : FieldMetadata × List SchemaError :=
  attrs.foldl (fun acc attr =>
    if attr.path = str "native" then
      match attr with
      | .list _ items =>
        let p := fieldMetadataFromItems acc.1 items
        (p.1, acc.2 ++ p.2)
      | _ => (acc.1, acc.2 ++ [.parseFail])
    else acc) ({}, [])

/-! ## `internals/ast.rs` and `wrapper.rs::expand_derive` -/

/-- The `syn::Data` shapes `ast::Metadata::from_ast` distinguishes: a struct
with named fields (each carrying its name, raw attributes and type), or
anything else (rejected). -/
inductive DataShape
  | namedStruct (fields : List (Str × List Meta × Ty))
  | otherData

/-- The derive input: type name, struct-level attributes, data shape. -/
structure DeriveInput where
  ident : Str
  attrs : List Meta
  data : DataShape

/-- `ast::Metadata::from_ast`: parse struct-level attributes, then each named
field's attributes in order; a non-struct input records an error and yields
`None`.  The second component is the context's accumulated error list. -/
def AstMetadata.from_ast (input : DeriveInput) :
    Option AstMetadata × List SchemaError :=
  match Metadata.from_ast input.attrs with
  | (attrs, errs1) =>
    match input.data with
    | .namedStruct fields =>
      (some
        { ident := input.ident,
          attrs := attrs,
          fields := fields.map (fun t =>
            { ident := t.1, attrs := (FieldMetadata.from_ast t.2.1).1, ty := t.2.2 }) },
       errs1 ++ (fields.map (fun t => (FieldMetadata.from_ast t.2.1).2)).flatten)
    | .otherData => (none, errs1 ++ [.notNamedStruct])

/-- The artifact of a successful expansion: the generated field initializers
and the generated accessor wrappers. -/
structure Output where
  loadClauses : List Clause
  wrappers : List Wrapper
deriving DecidableEq

/-- `expand_derive` from `wrapper.rs`: parse the input (returning the
accumulated errors if it is not a named struct), generate the load clause and
the wrappers, and fail with the whole accumulated error list if any error was
recorded (`ctxt.check()?`); only an error-free schema produces output.
`none` models the macro-time panic inside `generate_symbols_load_expr`. -/
def expand_derive (input : DeriveInput) :
    Option (Except (List SchemaError) Output) :=
  match AstMetadata.from_ast input with
  | (none, errs) => some (.error errs)
  | (some meta, errs1) =>
    match generate_symbols_load_clause meta with
    | none => none
    | some (clauses, errs2) =>
      match generate_symbols_wrapper meta with
      | (wrappers, errs3) =>
        if (errs1 ++ errs2 ++ errs3).isEmpty then
          some (.ok { loadClauses := clauses, wrappers := wrappers })
        else
          some (.error (errs1 ++ errs2 ++ errs3))

/-! ## Concrete schemas and libraries used in counterexamples and witnesses -/

/-- A field declaring the duplicate candidate list `["a", "a"]`. -/
def fdup : Field :=
  { ident := str "f",
    attrs := { symbols := [⟨.String (str "a"), false⟩, ⟨.String (str "a"), false⟩] },
    ty := .bareFn false }

/-- A schema holding only `fdup`, with no struct-level options. -/
def meta0 : AstMetadata := { ident := str "S", attrs := {}, fields := [fdup] }

/-- A field whose declared type is a variadic bare function, with no
attributes. -/
def fVariadic : Field := { ident := str "vfn", attrs := {}, ty := .bareFn true }

/-- A schema holding only `fVariadic`. -/
def metaVariadic : AstMetadata :=
  { ident := str "S", attrs := {}, fields := [fVariadic] }

/-- A schema configured with struct-level prefix `"il2cpp_"` and no suffix. -/
def metaIl2cpp : AstMetadata :=
  { ident := str "S",
    attrs := { symbol := { prefixStr := some (str "il2cpp_") } },
    fields := [] }

/-- A concrete library: the normal table resolves only `b` (at 7), the debug
table resolves only `d` (at 9). -/
def exLib : Library :=
  { symbolAddr := fun s => if s = str "b" then some 7 else none,
    debugSymbolAddr := fun s => if s = str "d" then some 9 else none }

/-- A derive input carrying two independent malformed attributes: an unknown
struct-level key `bogus` and a field-level `implicit(rename = "kebab-case")`
with an invalid rule name. -/
def badInput : DeriveInput :=
  { ident := str "S",
    attrs := [.list (str "native") [.bare (str "bogus")]],
    data := .namedStruct
      [(str "f",
        [Meta.list (str "native")
          [.list (str "implicit")
            [.nameValue (str "rename") (.lit (.strLit (str "kebab-case") []))]]],
        Ty.bareFn false)] }

/-- The parsed form of `badInput` (the invalid rename leaves the default
rule in place). -/
def badMeta : AstMetadata :=
  { ident := str "S",
    attrs := {},
    fields := [{ ident := str "f", attrs := {}, ty := .bareFn false }] }

/-- The two diagnostics `badInput` produces, in recording order. -/
def badErrs : List SchemaError :=
  [.unknownAttr (str "bogus"), .unknownRenameRule (str "kebab-case")]

/-- The load clause generated for `badMeta`'s single field. -/
def badClauses : List Clause :=
  [(str "f", .required, [{ symbol := str "f", debug := false, logger := false }])]

/-! ## Helper lemmas: the case converter -/

theorem splitOnUnderscoreSpec_ne_nil (f : Str) : splitOnUnderscoreSpec f ≠ [] := by
  cases f with
  | nil => simp [splitOnUnderscoreSpec]
  | cons c rest =>
    simp only [splitOnUnderscoreSpec]
    cases h : splitOnUnderscoreSpec rest with
    | nil => simp
    | cons s ss => by_cases hc : c = '_' <;> simp [hc]

theorem pascalAux_spec (f : Str) :
    pascalAux true f = pascalSpec f ∧ pascalAux false f = pascalSpecRest f := by
  induction f with
  | nil => exact ⟨rfl, rfl⟩
  | cons c rest ih =>
    obtain ⟨ih1, ih2⟩ := ih
    obtain ⟨s, ss, hs⟩ : ∃ s ss, splitOnUnderscoreSpec rest = s :: ss := by
      cases h : splitOnUnderscoreSpec rest with
      | nil => exact absurd h (splitOnUnderscoreSpec_ne_nil rest)
      | cons s ss => exact ⟨s, ss, rfl⟩
    have hrest : pascalSpecRest rest = s ++ (ss.map capitalizeSegment).flatten := by
      simp [pascalSpecRest, hs]
    by_cases hc : c = '_'
    · subst hc
      have hsplit : splitOnUnderscoreSpec ('_' :: rest) = [] :: s :: ss := by
        simp [splitOnUnderscoreSpec, hs]
      constructor
      · simp [pascalAux, pascalSpec, hsplit, capitalizeSegment, ih1, pascalSpec, hs]
      · simp [pascalAux, pascalSpecRest, hsplit, capitalizeSegment, ih1, pascalSpec, hs]
    · have hsplit : splitOnUnderscoreSpec (c :: rest) = (c :: s) :: ss := by
        simp [splitOnUnderscoreSpec, hs, hc]
      constructor
      · simp [pascalAux, hc, pascalSpec, hsplit, capitalizeSegment, ih2, hrest]
      · simp [pascalAux, hc, pascalSpecRest, hsplit, capitalizeSegment, ih2, hrest, hs]

theorem pascalAux_eq_pascalSpec (f : Str) : pascalAux true f = pascalSpec f :=
  (pascalAux_spec f).1

theorem pascalAux_underscores :
    ∀ field : Str, (∀ c ∈ field, c = '_') → pascalAux true field = []
  | [], _ => rfl
  | c :: rest, h => by
    have hc : c = '_' := h c (List.mem_cons_self c rest)
    have hr := pascalAux_underscores rest (fun d hd => h d (List.mem_cons_of_mem c hd))
    simp [pascalAux, hc, hr]

theorem isAsciiChar_toUpper (c : Char) (h : isAsciiChar c = true) :
    isAsciiChar c.toUpper = true := by
  unfold isAsciiChar at h ⊢
  rw [decide_eq_true_eq] at h
  rw [decide_eq_true_eq]
  show (if c.toNat ≥ 97 ∧ c.toNat ≤ 122 then Char.ofNat (c.toNat - 32) else c).toNat < 128
  by_cases hc : c.toNat ≥ 97 ∧ c.toNat ≤ 122
  · rw [if_pos hc]
    have hval : (c.toNat - 32).isValidChar := Or.inl (by omega)
    unfold Char.ofNat
    rw [dif_pos hval]
    have heq : (Char.ofNatAux (c.toNat - 32) hval).toNat = c.toNat - 32 := rfl
    omega
  · rw [if_neg hc]
    exact h

theorem pascalAux_all_ascii (field : Str) (h : field.all isAsciiChar = true) :
    ∀ b : Bool, (pascalAux b field).all isAsciiChar = true := by
  induction field with
  | nil => intro b; rfl
  | cons c rest ih =>
    simp only [List.all_cons, Bool.and_eq_true] at h
    intro b
    by_cases hu : c = '_'
    · simpa [pascalAux, hu] using ih h.2 true
    · cases b with
      | true =>
        simp [pascalAux, hu, List.all_cons, isAsciiChar_toUpper c h.1, ih h.2 false]
      | false =>
        simp [pascalAux, hu, List.all_cons, h.1, ih h.2 false]

/-- C1: for every field name the case converter implements the six rules
exactly: `None` and `SnakeCase` are the identity; `LowerCase`, `UpperCase`
and `ScreamingSnakeCase` are whole-string ASCII case changes (no separator
handling); `PascalCase` splits on `'_'`, drops the underscores and uppercases
each segment's first character leaving the remainder unchanged; `CamelCase`
is `PascalCase` with only its first character lowercased (whenever the
`PascalCase` form has a first character and that character is single-byte,
the region where the source returns at all).  The four representative
conversions hold. -/
theorem C1_case_rules (field : Str) :
    RenameRule.apply_to_field .None field = some field ∧
    RenameRule.apply_to_field .SnakeCase field = some field ∧
    RenameRule.apply_to_field .LowerCase field = some (field.map Char.toLower) ∧
    RenameRule.apply_to_field .UpperCase field = some (field.map Char.toUpper) ∧
    RenameRule.apply_to_field .ScreamingSnakeCase field = some (field.map Char.toUpper) ∧
    RenameRule.apply_to_field .PascalCase field = some (pascalSpec field) ∧
    (∀ c rest, pascalSpec field = c :: rest → isAsciiChar c = true →
      RenameRule.apply_to_field .CamelCase field = some (c.toLower :: rest)) ∧
    RenameRule.apply_to_field .PascalCase (str "get_user_name") = some (str "GetUserName") ∧
    RenameRule.apply_to_field .CamelCase (str "get_user_name") = some (str "getUserName") ∧
    RenameRule.apply_to_field .ScreamingSnakeCase (str "get_user_name")
      = some (str "GET_USER_NAME") ∧
    RenameRule.apply_to_field .LowerCase (str "GetUser") = some (str "getuser") := by
  refine ⟨rfl, rfl, rfl, rfl, rfl, ?_, ?_, by decide, by decide, by decide, by decide⟩
  · simpa [RenameRule.apply_to_field] using congrArg some (pascalAux_eq_pascalSpec field)
  · intro c rest hps hc
    have hp := pascalAux_eq_pascalSpec field
    simp [RenameRule.apply_to_field, hp, hps, hc]

/-- Witness for C1: the `CamelCase` guards are discharged at
`"get_user_name"`, whose `PascalCase` form starts with the ASCII `'G'`. -/
theorem C1_case_rules_witness :
    pascalSpec (str "get_user_name") = 'G' :: str "etUserName" ∧
    isAsciiChar 'G' = true ∧
    RenameRule.apply_to_field .CamelCase (str "get_user_name")
      = some ('G'.toLower :: str "etUserName") :=
  ⟨by decide, by decide,
   (C1_case_rules (str "get_user_name")).2.2.2.2.2.2.1 'G' (str "etUserName")
     (by decide) (by decide)⟩

/-- C10: the case converter is not total for `CamelCase`: on a field name
that is empty or consists only of underscores the intermediate `PascalCase`
string is empty and `apply_to_field` panics (modelled as `none`); for every
name whose `PascalCase` form is non-empty ASCII it returns normally. -/
theorem C10_camelcase_partiality :
    RenameRule.apply_to_field .CamelCase (str "") = none ∧
    (∀ field : Str, (∀ c ∈ field, c = '_') →
      RenameRule.apply_to_field .CamelCase field = none) ∧
    (∀ field : Str, pascalAux true field ≠ [] → field.all isAsciiChar = true →
      ∃ out, RenameRule.apply_to_field .CamelCase field = some out) := by
  refine ⟨rfl, ?_, ?_⟩
  · intro field h
    simp [RenameRule.apply_to_field, pascalAux_underscores field h]
  · intro field hne hall
    cases hp : pascalAux true field with
    | nil => exact absurd hp hne
    | cons c rest =>
      have hasc : isAsciiChar c = true := by
        have hall2 := pascalAux_all_ascii field hall true
        rw [hp] at hall2
        simp only [List.all_cons, Bool.and_eq_true] at hall2
        exact hall2.1
      exact ⟨c.toLower :: rest, by simp [RenameRule.apply_to_field, hp, hasc]⟩

/-- Witness for C10, discharged at `"__"` (panic case) and `"ab"` (normal
case). -/
theorem C10_camelcase_partiality_witness :
    RenameRule.apply_to_field .CamelCase (str "__") = none ∧
    (pascalAux true (str "ab") ≠ [] ∧ (str "ab").all isAsciiChar = true ∧
      ∃ out, RenameRule.apply_to_field .CamelCase (str "ab") = some out) :=
  ⟨C10_camelcase_partiality.2.1 (str "__") (by decide),
   by decide, by decide,
   C10_camelcase_partiality.2.2 (str "ab") (by decide) (by decide)⟩

/-! ## Helper lemmas: effective option values and candidate lists -/

theorem renameRule_or_if (a b : RenameRule) :
    a.or b = if a = RenameRule.None then b else a := by
  cases a <;> simp [RenameRule.or]

theorem option_or_getD (a b : Option Bool) :
    (a.or b).getD false = a.getD (b.getD false) := by
  cases a <;> cases b <;> rfl

theorem fieldSymbols_ne_nil (f : Field) (meta : AstMetadata) (l : List SymbolSpec)
    (h : fieldSymbols f meta = some l) : l ≠ [] := by
  unfold fieldSymbols at h
  by_cases he : f.attrs.symbols.isEmpty
  · rw [if_pos he] at h
    cases happ : (f.attrs.implicit.rename.or meta.attrs.implicit.rename).apply_to_field
        f.ident with
    | none => rw [happ] at h; exact absurd h (by simp)
    | some s =>
      rw [happ] at h
      obtain rfl : _ = l := Option.some_injective _ h
      simp
  · rw [if_neg he] at h
    obtain rfl : _ = l := Option.some_injective _ h
    simpa [List.isEmpty_iff] using he

/-- C2: for every field, the effective rename rule, debug flag and logger
flag are the field-level values when declared and the struct-level values
otherwise — rename through `RenameRule.or` (`self` unless `None`), debug and
logger through `Option` fallback with debug defaulting to `false` — and
these are exactly the values `generate_symbols_load_expr` uses for the
implicit candidate and for every candidate's logger flag. -/
theorem C2_precedence (f : Field) (meta : AstMetadata) :
    (f.attrs.implicit.rename.or meta.attrs.implicit.rename
      = if f.attrs.implicit.rename = RenameRule.None then meta.attrs.implicit.rename
        else f.attrs.implicit.rename) ∧
    ((f.attrs.implicit.debug.or meta.attrs.implicit.debug).getD false
      = f.attrs.implicit.debug.getD (meta.attrs.implicit.debug.getD false)) ∧
    (f.attrs.logger.getD meta.attrs.logger
      = match f.attrs.logger with
        | some b => b
        | none => meta.attrs.logger) ∧
    (f.attrs.symbols = [] →
      fieldSymbols f meta
        = ((f.attrs.implicit.rename.or meta.attrs.implicit.rename).apply_to_field
            f.ident).map (fun s =>
              [{ name := LitString.String s,
                 debug := (f.attrs.implicit.debug.or meta.attrs.implicit.debug).getD
                   false }])) ∧
    (∀ plan ∈ fieldPlan f meta, ∀ e ∈ plan,
      e.logger = f.attrs.logger.getD meta.attrs.logger) := by
  refine ⟨renameRule_or_if _ _, option_or_getD _ _, ?_, ?_, ?_⟩
  · cases f.attrs.logger <;> rfl
  · intro h
    cases happ : (f.attrs.implicit.rename.or meta.attrs.implicit.rename).apply_to_field
        f.ident with
    | none => simp [fieldSymbols, h, happ]
    | some s => simp [fieldSymbols, h, happ]
  · intro plan hplan e he
    cases hfs : fieldSymbols f meta with
    | none => simp [fieldPlan, hfs] at hplan
    | some l =>
      simp only [fieldPlan, hfs, Option.map_some', Option.mem_def, Option.some_inj] at hplan
      subst hplan
      obtain ⟨spec, _, rfl⟩ := List.mem_map.mp he
      rfl

/-- Witness for C2, discharged at a field with no declared symbols. -/
theorem C2_precedence_witness :
    fieldSymbols fVariadic metaVariadic
      = ((fVariadic.attrs.implicit.rename.or metaVariadic.attrs.implicit.rename).apply_to_field
          fVariadic.ident).map (fun s =>
            [{ name := LitString.String s,
               debug := (fVariadic.attrs.implicit.debug.or
                 metaVariadic.attrs.implicit.debug).getD false }]) :=
  (C2_precedence fVariadic metaVariadic).2.2.2.1 rfl

/-- C3: for every field whose explicit candidate list is empty, exactly one
implicit candidate is synthesized — the effective rename rule (field
override, else struct default, else identity) applied to the field's
declared name, with the effective debug setting (field override, else struct
default, else `false`) — and every field's plan is non-empty. -/
theorem C3_implicit_synthesis (f : Field) (meta : AstMetadata) (plan : List PlanEntry)
    (h : fieldPlan f meta = some plan) :
    plan ≠ [] ∧
    (f.attrs.symbols = [] →
      ∃ name,
        RenameRule.apply_to_field
          (if f.attrs.implicit.rename = RenameRule.None then meta.attrs.implicit.rename
           else f.attrs.implicit.rename) f.ident = some name ∧
        plan = [{ symbol := decorateSymbol meta
                    { name := LitString.String name,
                      debug := f.attrs.implicit.debug.getD
                        (meta.attrs.implicit.debug.getD false) },
                  debug := f.attrs.implicit.debug.getD
                    (meta.attrs.implicit.debug.getD false),
                  logger := f.attrs.logger.getD meta.attrs.logger }]) := by
  cases hfs : fieldSymbols f meta with
  | none => simp [fieldPlan, hfs] at h
  | some l =>
    simp only [fieldPlan, hfs, Option.map_some', Option.some_inj] at h
    subst h
    constructor
    · simpa using fieldSymbols_ne_nil f meta l hfs
    · intro hsym
      unfold fieldSymbols at hfs
      rw [if_pos (by simp [hsym])] at hfs
      cases happ : (f.attrs.implicit.rename.or meta.attrs.implicit.rename).apply_to_field
          f.ident with
      | none => rw [happ] at hfs; exact absurd hfs (by simp)
      | some name =>
        rw [happ] at hfs
        obtain rfl : _ = l := Option.some_injective _ hfs
        refine ⟨name, ?_, ?_⟩
        · rw [← renameRule_or_if]; exact happ
        · simp [option_or_getD]

/-- Witness for C3: the plan of a field with no declared symbols is the
implicit singleton, hence non-empty. -/
theorem C3_implicit_synthesis_witness :
    fieldPlan fVariadic metaVariadic
      = some [{ symbol := str "vfn", debug := false, logger := false }] ∧
    [({ symbol := str "vfn", debug := false, logger := false } : PlanEntry)] ≠ [] :=
  ⟨rfl, (C3_implicit_synthesis fVariadic metaVariadic
    [{ symbol := str "vfn", debug := false, logger := false }] rfl).1⟩



/-- C5: for every logical (plain string) candidate, the struct-level prefix
and suffix are trimmed and prepended/appended to form the looked-up name;
exact-bytes (C-string) candidates are never decorated.  In particular
logical `"open"` under struct prefix `"il2cpp_"` decorates to
`"il2cpp_open"`, while exact `c"open"` is untouched. -/
theorem C5_decoration (meta : AstMetadata) (name : Str) (dbg : Bool) :
    decorateSymbol meta { name := LitString.String name, debug := dbg }
      = (match meta.attrs.symbol.prefixStr with
         | some p => rustTrim p
         | none => [])
        ++ name ++
        (match meta.attrs.symbol.suffixStr with
         | some s => rustTrim s
         | none => []) ∧
    decorateSymbol meta { name := LitString.CString name, debug := dbg } = name ∧
    decorateSymbol metaIl2cpp { name := LitString.String (str "open"), debug := dbg }
      = str "il2cpp_open" ∧
    decorateSymbol metaIl2cpp { name := LitString.CString (str "open"), debug := dbg }
      = str "open" := by
    refine ⟨?_, rfl, by with_unfolding_all rfl, rfl⟩
    cases hp : meta.attrs.symbol.prefixStr <;>
      cases hs : meta.attrs.symbol.suffixStr <;>
        simp [decorateSymbol, hp, hs]

/-- C8 as stated is false: the candidate list is used verbatim, so a field
declaring `["a", "a"]` yields the resolution plan `["a", "a"]`, whose
decorated names are not distinct. -/
theorem C8_counterexample :
    fieldPlanNames fdup meta0 = some [str "a", str "a"] ∧
    ¬ List.Nodup [str "a", str "a"] := by
  exact ⟨rfl, by decide⟩

/-- C8 (amended): for every field with declared candidates, the resolution
plan is exactly the declared list, decorated, in declared order and with
multiplicity preserved — no deduplication is performed, so duplicate
declared (or duplicate decorated) names yield duplicate plan entries. -/
theorem C8_plan_verbatim (f : Field) (meta : AstMetadata)
    (h : f.attrs.symbols ≠ []) :
    fieldPlan f meta
      = some (f.attrs.symbols.map (fun spec =>
          { symbol := decorateSymbol meta spec,
            debug := spec.debug,
            logger := f.attrs.logger.getD meta.attrs.logger })) := by
  have he : f.attrs.symbols.isEmpty = false := by
    simpa [List.isEmpty_iff] using h
  simp [fieldPlan, fieldSymbols, he]

/-- Witness for C8 (amended), discharged at the duplicate-candidate field. -/
theorem C8_plan_verbatim_witness :
    fdup.attrs.symbols ≠ [] ∧
    fieldPlan fdup meta0
      = some (fdup.attrs.symbols.map (fun spec =>
          { symbol := decorateSymbol meta0 spec,
            debug := spec.debug,
            logger := fdup.attrs.logger.getD meta0.attrs.logger })) :=
  ⟨by decide, C8_plan_verbatim fdup meta0 (by decide)⟩

/-! ## Helper lemmas: the or_else fallback chain -/

theorem foldl_orElse_ok (lib : Library) (l : List PlanEntry) (a : Nat) :
    l.foldl
      (fun acc e =>
        match acc with
        | .ok x => .ok x
        | .error _ => lib.lookupEntry e)
      (Except.ok a) = Except.ok a := by
  induction l with
  | nil => rfl
  | cons e rest ih => simpa [List.foldl_cons] using ih

theorem loadExprEval_eq_firstSuccess (lib : Library) (e : PlanEntry)
    (rest : List PlanEntry) :
    loadExprEval lib (e :: rest) = some (firstSuccess lib e rest) := by
  induction rest generalizing e with
  | nil => rfl
  | cons e2 rest2 ih =>
    cases hl : lib.lookupEntry e with
    | ok a =>
      simp only [loadExprEval, firstSuccess, hl, List.foldl_cons]
      rw [foldl_orElse_ok]
    | error s =>
      have := ih e2
      simp only [loadExprEval, firstSuccess, hl, List.foldl_cons] at this ⊢
      exact this

theorem loadExprEval_skip (lib : Library) (d : PlanEntry) (l : List PlanEntry)
    (s : Str) (hl : l ≠ []) (hd : lib.lookupEntry d = .error s) :
    loadExprEval lib (d :: l) = loadExprEval lib l ∧
    loadExprAttempts lib (d :: l) = d :: loadExprAttempts lib l := by
  obtain ⟨e, rest, rfl⟩ := List.exists_cons_of_ne_nil hl
  refine ⟨?_, by simp [loadExprAttempts, hd]⟩
  rw [loadExprEval_eq_firstSuccess, loadExprEval_eq_firstSuccess]
  simp [firstSuccess, hd]

/-- C4: the generated load expression tries a field's candidates strictly in
declared order, left to right, selecting the debug or normal table per
candidate inside `Library.lookupEntry`; with every candidate before `e`
failing and `e` resolving to `a`, the chain returns `a`, and the set of
candidates actually attempted is exactly the declared prefix up to and
including `e` — the candidates after the first success are never attempted,
whatever they are. -/
theorem C4_fallback_order (lib : Library) (pre post : List PlanEntry)
    (e : PlanEntry) (a : Nat)
    (hpre : ∀ d ∈ pre, lib.lookupEntry d = Except.error d.symbol)
    (he : lib.lookupEntry e = .ok a) :
    loadExprEval lib (pre ++ e :: post) = some (.ok a) ∧
    loadExprAttempts lib (pre ++ e :: post) = pre ++ [e] := by
  induction pre with
  | nil =>
    refine ⟨?_, by simp [loadExprAttempts, he]⟩
    rw [List.nil_append, loadExprEval_eq_firstSuccess]
    cases post with
    | nil => simp [firstSuccess, he]
    | cons p ps => simp [firstSuccess, he]
  | cons d pre2 ih =>
    have hd := hpre d (List.mem_cons_self d pre2)
    have hih := ih (fun x hx => hpre x (List.mem_cons_of_mem d hx))
    have hskip := loadExprEval_skip lib d (pre2 ++ e :: post) d.symbol
      (by simp) hd
    constructor
    · rw [List.cons_append, hskip.1]
      exact hih.1
    · rw [List.cons_append, hskip.2, hih.2]
      rfl

/-- Witness for C4: with the normal table failing on `a`, the debug table
resolving `d`, and a further candidate `c` declared after it, the chain
returns the debug address and attempts exactly `a` then `d`. -/
theorem C4_fallback_order_witness :
    (∀ x ∈ [PlanEntry.mk (str "a") false false],
      exLib.lookupEntry x = Except.error x.symbol) ∧
    exLib.lookupEntry { symbol := str "d", debug := true, logger := false }
      = .ok 9 ∧
    loadExprEval exLib
      [{ symbol := str "a", debug := false, logger := false },
       { symbol := str "d", debug := true, logger := false },
       { symbol := str "c", debug := false, logger := false }] = some (.ok 9) ∧
    loadExprAttempts exLib
      [{ symbol := str "a", debug := false, logger := false },
       { symbol := str "d", debug := true, logger := false },
       { symbol := str "c", debug := false, logger := false }]
      = [{ symbol := str "a", debug := false, logger := false },
         { symbol := str "d", debug := true, logger := false }] := by
  have h := C4_fallback_order exLib
    [{ symbol := str "a", debug := false, logger := false }]
    [{ symbol := str "c", debug := false, logger := false }]
    { symbol := str "d", debug := true, logger := false } 9
    (by intro d hd; rw [List.mem_singleton] at hd; subst hd; rfl) rfl
  exact ⟨by intro d hd; rw [List.mem_singleton] at hd; subst hd; rfl, rfl,
    h.1, h.2⟩

/-! ## Helper lemmas: the generated load_from body -/

theorem load_from_nil (lib : Library) : load_from lib [] = some (.ok []) := rfl

theorem load_from_append_ok (lib : Library) (rest : List Clause) (pre : List Clause) :
    ∀ vs : List FieldValue,
      load_from lib pre = some (.ok vs) →
      load_from lib (pre ++ rest)
        = (load_from lib rest).map (Except.map (fun ws => vs ++ ws)) := by
  induction pre with
  | nil =>
    intro vs h
    rw [load_from_nil] at h
    have hvs : ([] : List FieldValue) = vs := by
      have h2 := Option.some_injective _ h
      injection h2
    subst hvs
    rw [List.nil_append]
    cases hr : load_from lib rest with
    | none => simp
    | some r => cases r <;> simp [Except.map]
  | cons c pre2 ih =>
    intro vs h
    obtain ⟨name, k, plan⟩ := c
    rw [List.cons_append]
    cases hle : loadExprEval lib plan with
    | none =>
      simp only [load_from, hle] at h
      exact Option.noConfusion h
    | some res =>
      cases k with
      | unsupported =>
        simp only [load_from, hle] at h
        exact Option.noConfusion h
      | required =>
        cases res with
        | error e =>
          simp only [load_from, hle] at h
          exact Except.noConfusion (Option.some_injective _ h)
        | ok a =>
          simp only [load_from, hle] at h ⊢
          cases hp : load_from lib pre2 with
          | none => rw [hp] at h; simp at h
          | some r =>
            rw [hp] at h
            cases r with
            | error e => simp [Except.map] at h
            | ok vs2 =>
              simp only [Option.map_some', Except.map, Option.some_inj,
                Except.ok.injEq] at h
              subst h
              rw [ih vs2 hp]
              cases hr : load_from lib rest with
              | none => simp
              | some r => cases r <;> simp [Except.map]
      | optional =>
        simp only [load_from, hle] at h ⊢
        cases hp : load_from lib pre2 with
        | none => rw [hp] at h; simp at h
        | some r =>
          rw [hp] at h
          cases r with
          | error e => simp [Except.map] at h
          | ok vs2 =>
            simp only [Option.map_some', Except.map, Option.some_inj,
              Except.ok.injEq] at h
            subst h
            rw [ih vs2 hp]
            cases hr : load_from lib rest with
            | none => simp
            | some r => cases r <;> simp [Except.map]

/-- C6: when every candidate of a field fails, an `Option`-typed field is
set to `None` with no error (the rest of the struct still loads) and its
`has_<field>` query reports `false`; a non-optional field makes the whole
generated `load_from` return the error, so the error result carries no
field values and no partially-initialized API object is ever exposed. -/
theorem C6_exhaustion (lib : Library) (pre post : List Clause) (name : Str)
    (plan : List PlanEntry) (e : Str) (vs : List FieldValue)
    (hpre : load_from lib pre = some (.ok vs))
    (hfail : loadExprEval lib plan = some (.error e)) :
    load_from lib (pre ++ (name, LoadKind.optional, plan) :: post)
      = (load_from lib post).map (Except.map (fun ws =>
          vs ++ FieldValue.optional none :: ws)) ∧
    has_field (FieldValue.optional none) = some false ∧
    load_from lib (pre ++ (name, LoadKind.required, plan) :: post)
      = some (.error e) := by
  refine ⟨?_, rfl, ?_⟩
  · rw [load_from_append_ok lib ((name, LoadKind.optional, plan) :: post) pre vs hpre]
    simp only [load_from, hfail]
    cases hr : load_from lib post with
    | none => simp
    | some r => cases r <;> simp [Except.map, Except.toOption]
  · rw [load_from_append_ok lib ((name, LoadKind.required, plan) :: post) pre vs hpre]
    simp only [load_from, hfail]
    simp [Except.map]

/-- Witness for C6: a single-candidate field whose lookup fails, as the only
field of the struct. -/
theorem C6_exhaustion_witness :
    load_from exLib [] = some (.ok []) ∧
    loadExprEval exLib [{ symbol := str "zz", debug := false, logger := false }]
      = some (.error (str "zz")) ∧
    load_from exLib
      [(str "x", LoadKind.optional,
        [{ symbol := str "zz", debug := false, logger := false }])]
      = (load_from exLib []).map (Except.map (fun ws =>
          [] ++ FieldValue.optional none :: ws)) ∧
    has_field (FieldValue.optional none) = some false ∧
    load_from exLib
      [(str "x", LoadKind.required,
        [{ symbol := str "zz", debug := false, logger := false }])]
      = some (.error (str "zz")) := by
  have h := C6_exhaustion exLib [] [] (str "x")
    [{ symbol := str "zz", debug := false, logger := false }] (str "zz") []
    rfl rfl
  exact ⟨rfl, rfl, h.1, h.2.1, h.2.2⟩

/-- C9 as stated is false: a variadic bare-function field is not rejected.
For the one-field schema `metaVariadic`, `generate_symbols_load_clause`
produces a required load clause for the field and records no schema error,
and `generate_symbols_wrapper` records no error either (it only skips the
wrapper). -/
theorem C9_counterexample :
    generate_symbols_load_clause metaVariadic
      = some ([(str "vfn", LoadKind.required,
          [{ symbol := str "vfn", debug := false, logger := false }])], []) ∧
    fieldWrapper fVariadic = (none, []) ∧
    generate_symbols_wrapper metaVariadic = ([], []) :=
  ⟨rfl, rfl, rfl⟩

/-- C9 (amended): a field whose declared type is a variadic bare function is
accepted: its load clause is generated with the same required-field policy
as a non-variadic function, no schema error is recorded for it, and no
safe wrapper is synthesized (the caller handles the raw symbol manually). -/
theorem C9_variadic_accepted (f : Field)
    (h : skip_type_group f.ty = Ty.bareFn true) :
    loadKind f.ty = .required ∧ fieldWrapper f = (none, []) := by
  constructor
  · simp [loadKind, h]
  · simp [fieldWrapper, h]

/-- Witness for C9 (amended) at the concrete variadic field. -/
theorem C9_variadic_accepted_witness :
    loadKind fVariadic.ty = .required ∧ fieldWrapper fVariadic = (none, []) :=
  C9_variadic_accepted fVariadic rfl

/-! ## Helper lemmas: error accumulation across attributes -/

theorem implicitFromItems_errs (items : List Meta) :
    ∀ m1 m2 : ImplicitMetadata,
      (implicitFromItems m1 items).2 = (implicitFromItems m2 items).2 := by
  induction items with
  | nil => intro m1 m2; rfl
  | cons item rest ih =>
    intro m1 m2
    simp only [implicitFromItems]
    by_cases h1 : item.path = str "rename"
    · rw [if_pos h1, if_pos h1]
      cases get_lit_str (str "rename") item with
      | error e => rfl
      | ok p =>
        obtain ⟨os, errs⟩ := p
        cases os with
        | none => exact congrArg (fun l => errs ++ l) (ih _ _)
        | some s =>
          cases h : RenameRule.fromStr s with
          | ok rule =>
            simp only [h]
            exact congrArg (fun l => errs ++ l) (ih _ _)
          | error u =>
            simp only [h]
            exact congrArg (fun l => errs ++ SchemaError.unknownRenameRule u :: l) (ih _ _)
    · rw [if_neg h1, if_neg h1]
      by_cases h2 : item.path = str "debug"
      · rw [if_pos h2, if_pos h2]
        cases get_lit_bool (str "debug") item with
        | error e => rfl
        | ok p =>
          obtain ⟨ob, errs⟩ := p
          cases ob <;> exact congrArg (fun l => errs ++ l) (ih _ _)
      · rw [if_neg h2, if_neg h2]

theorem symbolFromItems_errs (items : List Meta) :
    ∀ m1 m2 : SymbolMetadata,
      (symbolFromItems m1 items).2 = (symbolFromItems m2 items).2 := by
  induction items with
  | nil => intro m1 m2; rfl
  | cons item rest ih =>
    intro m1 m2
    simp only [symbolFromItems]
    by_cases h1 : item.path = str "prefix"
    · rw [if_pos h1, if_pos h1]
      cases get_lit_str (str "prefix") item with
      | error e => rfl
      | ok p =>
        obtain ⟨os, errs⟩ := p
        cases os with
        | none => exact congrArg (fun l => errs ++ l) (ih _ _)
        | some s => exact congrArg (fun l => errs ++ l) (ih _ _)
    · rw [if_neg h1, if_neg h1]
      by_cases h2 : item.path = str "suffix"
      · rw [if_pos h2, if_pos h2]
        cases get_lit_str (str "suffix") item with
        | error e => rfl
        | ok p =>
          obtain ⟨os, errs⟩ := p
          cases os with
          | none => exact congrArg (fun l => errs ++ l) (ih _ _)
          | some s => exact congrArg (fun l => errs ++ l) (ih _ _)
      · rw [if_neg h2, if_neg h2]

theorem metadataFromItems_errs (items : List Meta) :
    ∀ m1 m2 : Metadata,
      (metadataFromItems m1 items).2 = (metadataFromItems m2 items).2 := by
  induction items with
  | nil => intro m1 m2; rfl
  | cons item rest ih =>
    intro m1 m2
    simp only [metadataFromItems]
    by_cases h1 : item.path = str "implicit"
    · rw [if_pos h1, if_pos h1]
      exact congrArg (fun l => (ImplicitMetadata.from_ast item).2 ++ l) (ih _ _)
    · rw [if_neg h1, if_neg h1]
      by_cases h2 : item.path = str "symbol"
      · rw [if_pos h2, if_pos h2]
        exact congrArg (fun l => (SymbolMetadata.from_ast item).2 ++ l) (ih _ _)
      · rw [if_neg h2, if_neg h2]
        by_cases h3 : item.path = str "logger"
        · rw [if_pos h3, if_pos h3]
          cases get_lit_bool (str "logger") item with
          | error e => rfl
          | ok p =>
            obtain ⟨ob, errs⟩ := p
            cases ob <;> exact congrArg (fun l => errs ++ l) (ih _ _)
        · rw [if_neg h3, if_neg h3]

theorem metadataFromAttr_errs (attr : Meta) (m1 m2 : Metadata) :
    (metadataFromAttr m1 attr).2 = (metadataFromAttr m2 attr).2 := by
  unfold metadataFromAttr
  by_cases h : attr.path = str "native"
  · rw [if_pos h, if_pos h]
    cases attr with
    | list p items => exact metadataFromItems_errs items m1 m2
    | nameValue p v => rfl
    | bare p => rfl
  · rw [if_neg h, if_neg h]

theorem metadataFold_errs_prepend (attrs : List Meta) :
    ∀ (m : Metadata) (es : List SchemaError),
      (attrs.foldl (fun acc attr =>
        ((metadataFromAttr acc.1 attr).1, acc.2 ++ (metadataFromAttr acc.1 attr).2))
        (m, es)).2
      = es ++ (attrs.foldl (fun acc attr =>
          ((metadataFromAttr acc.1 attr).1, acc.2 ++ (metadataFromAttr acc.1 attr).2))
          (m, [])).2 := by
  induction attrs with
  | nil => intro m es; simp
  | cons a rest ih =>
    intro m es
    simp only [List.foldl_cons]
    rw [ih _ (es ++ (metadataFromAttr m a).2), ih _ ([] ++ (metadataFromAttr m a).2)]
    simp [List.append_assoc]

theorem metadataFold_errs_start (attrs : List Meta) :
    ∀ m1 m2 : Metadata,
      (attrs.foldl (fun acc attr =>
        ((metadataFromAttr acc.1 attr).1, acc.2 ++ (metadataFromAttr acc.1 attr).2))
        (m1, [])).2
      = (attrs.foldl (fun acc attr =>
          ((metadataFromAttr acc.1 attr).1, acc.2 ++ (metadataFromAttr acc.1 attr).2))
          (m2, [])).2 := by
  induction attrs with
  | nil => intro m1 m2; rfl
  | cons a rest ih =>
    intro m1 m2
    simp only [List.foldl_cons, List.nil_append]
    rw [metadataFold_errs_prepend rest _ (metadataFromAttr m1 a).2,
      metadataFold_errs_prepend rest _ (metadataFromAttr m2 a).2,
      metadataFromAttr_errs a m1 m2, ih (metadataFromAttr m1 a).1 (metadataFromAttr m2 a).1]

theorem Metadata_from_ast_append (a1 a2 : List Meta) :
    (Metadata.from_ast (a1 ++ a2)).2
      = (Metadata.from_ast a1).2 ++ (Metadata.from_ast a2).2 := by
  unfold Metadata.from_ast
  rw [List.foldl_append]
  rw [show (a1.foldl (fun acc attr =>
      ((metadataFromAttr acc.1 attr).1, acc.2 ++ (metadataFromAttr acc.1 attr).2))
      ({}, [])) = ((a1.foldl (fun acc attr =>
        ((metadataFromAttr acc.1 attr).1, acc.2 ++ (metadataFromAttr acc.1 attr).2))
        ({}, [])).1, (a1.foldl (fun acc attr =>
          ((metadataFromAttr acc.1 attr).1, acc.2 ++ (metadataFromAttr acc.1 attr).2))
          ({}, [])).2) from rfl]
  rw [metadataFold_errs_prepend a2]
  rw [metadataFold_errs_start a2 _ {}]

/-- C7: schema errors accumulate across the whole schema and are reported
together — errors contributed by a list of attributes are the concatenation
of each attribute's errors, never cut short at the first bad attribute; the
concrete schema with an unknown struct-level key and an invalid field-level
case-rule name yields both diagnostics in one result; and whenever any
error was recorded, the expansion result is the aggregate error list and no
binding code is emitted. -/
theorem C7_error_accumulation :
    (∀ a1 a2 : List Meta,
      (Metadata.from_ast (a1 ++ a2)).2
        = (Metadata.from_ast a1).2 ++ (Metadata.from_ast a2).2) ∧
    expand_derive badInput
      = some (.error [.unknownAttr (str "bogus"),
                      .unknownRenameRule (str "kebab-case")]) ∧
    (∀ (input : DeriveInput) (meta : AstMetadata)
        (errs1 errs2 : List SchemaError) (clauses : List Clause),
      AstMetadata.from_ast input = (some meta, errs1) →
      generate_symbols_load_clause meta = some (clauses, errs2) →
      (errs1 ≠ [] ∨ errs2 ≠ [] ∨ (generate_symbols_wrapper meta).2 ≠ []) →
      expand_derive input
        = some (.error (errs1 ++ errs2 ++ (generate_symbols_wrapper meta).2))) := by
  refine ⟨Metadata_from_ast_append, rfl, ?_⟩
  intro input meta errs1 errs2 clauses h1 h2 h3
  rcases hw : generate_symbols_wrapper meta with ⟨wrappers, errs3⟩
  rw [hw] at h3
  simp only [expand_derive, h1, h2, hw]
  have hne : errs1 ++ errs2 ++ errs3 ≠ [] := by
    intro hnil
    rw [List.append_eq_nil, List.append_eq_nil] at hnil
    rcases h3 with h | h | h
    · exact h hnil.1.1
    · exact h hnil.1.2
    · exact h hnil.2
  rw [if_neg (by simpa [List.isEmpty_iff] using hne)]

/-- Witness for C7: the two-error schema satisfies the hypotheses of the
aggregate-error clause. -/
theorem C7_error_accumulation_witness :
    AstMetadata.from_ast badInput = (some badMeta, badErrs) ∧
    generate_symbols_load_clause badMeta = some (badClauses, []) ∧
    (badErrs ≠ [] ∨ ([] : List SchemaError) ≠ [] ∨
      (generate_symbols_wrapper badMeta).2 ≠ []) ∧
    expand_derive badInput
      = some (.error (badErrs ++ [] ++ (generate_symbols_wrapper badMeta).2)) :=
  ⟨rfl, rfl, Or.inl (by decide),
   C7_error_accumulation.2.2 badInput badMeta badErrs [] badClauses rfl rfl
     (Or.inl (by decide))⟩

end Xdl
